import Mathlib

/-!
# Verification of the convex-typegen extraction/normalization pipeline

Shallow embedding of `src/js/mocks/normalize.ts`, the function-record loop of
`src/js/extractor.ts`, and the `paginationOptsValidator` constant of
`src/js/mocks/convex_server.ts`.

JavaScript runtime values are modelled by `JSValue`. JS objects are ordered
association lists (the sources use only non-numeric string keys, for which
`Object.entries` enumeration order is insertion order). `Option` on the
result of `normalize` models a thrown `TypeError` (the one throwing path is
`members.map` when `members` is not an array).
-/

namespace ConvexTypegen

inductive JSValue : Type where
  | null : JSValue
  | undefined : JSValue
  | bool : Bool → JSValue
  | num : Int → JSValue
  | str : String → JSValue
  | arr : List JSValue → JSValue
  | obj : List (String × JSValue) → JSValue

namespace JSValue

/-- First-match association lookup. JS object literals keep one slot per key,
so for the objects the pipeline builds this is exactly JS property access. -/
def assocLookup : List (String × JSValue) → String → Option JSValue
  | [], _ => none
  | (k, x) :: rest, key => if k = key then some x else assocLookup rest key

/-- JS property access `v.key`: `none` models `undefined` for a missing key
or access on a value with no own properties. -/
def lookup : JSValue → String → Option JSValue
  | .obj fs, key => assocLookup fs key
  | _, _ => none

/-- JS `v === null`. -/
def isNull : JSValue → Bool
  | .null => true
  | _ => false

/-- JS `typeof v === "object"` (true for `null`, arrays and plain objects). -/
def isObjectType : JSValue → Bool
  | .null => true
  | .arr _ => true
  | .obj _ => true
  | _ => false

/-- JS truthiness of a value. -/
def truthy : JSValue → Bool
  | .null => false
  | .undefined => false
  | .bool b => b
  | .num n => decide (n ≠ 0)
  | .str s => decide (s ≠ "")
  | .arr _ => true
  | .obj _ => true

end JSValue

/-- Predicate `isConvexValidator` from src/js/mocks/normalize.ts: non-null object whose
`isConvexValidator` property is strictly `true`. -/
def isConvexValidator (val : JSValue) : Bool :=
  !val.isNull && val.isObjectType
    && (match val.lookup "isConvexValidator" with
        | some (.bool true) => true
        | _ => false)

/-- Predicate `isCodegenDescriptor` from src/js/mocks/normalize.ts: non-null object with
a string-typed `type` property and a falsy `isConvexValidator` property. -/
def isCodegenDescriptor (val : JSValue) : Bool :=
  !val.isNull && val.isObjectType
    && (match val.lookup "type" with
        | some (.str _) => true
        | _ => false)
    && !(JSValue.truthy ((val.lookup "isConvexValidator").getD .undefined))

section SizeLemmas

theorem sizeOf_lt_of_assocLookup {fs : List (String × JSValue)} {key : String}
    {x : JSValue} (h : JSValue.assocLookup fs key = some x) :
    sizeOf x < sizeOf fs := by
  induction fs with
  | nil => simp [JSValue.assocLookup] at h
  | cons p rest ih =>
    obtain ⟨k, v⟩ := p
    by_cases hk : k = key
    · simp [JSValue.assocLookup, hk] at h
      subst h
      simp
      omega
    · simp [JSValue.assocLookup, hk] at h
      have := ih h
      simp
      omega

theorem sizeOf_lt_of_lookup {v : JSValue} {key : String} {x : JSValue}
    (h : v.lookup key = some x) : sizeOf x < sizeOf v := by
  cases v <;> simp [JSValue.lookup] at h
  case obj fs =>
    have h1 := sizeOf_lt_of_assocLookup h
    have h2 : sizeOf (JSValue.obj fs) = 1 + sizeOf fs := by simp
    omega

theorem one_le_sizeOf_str (s : String) : 1 ≤ sizeOf (JSValue.str s) := by
  simp

/-- Descending through `(v.lookup key).getD .undefined` shrinks the size as
long as `v` has at least one successful lookup (e.g. its `kind` property). -/
theorem sizeOf_lookup_getD_lt {v : JSValue} {key k2 : String} {w : JSValue}
    (h2 : v.lookup k2 = some w) (hw : 1 ≤ sizeOf w) :
    sizeOf ((v.lookup key).getD .undefined) < sizeOf v := by
  have hv := sizeOf_lt_of_lookup h2
  cases h : v.lookup key with
  | none =>
      have h1 : sizeOf JSValue.undefined = 1 := by simp
      simp only [h, Option.getD]
      omega
  | some e =>
      have he := sizeOf_lt_of_lookup h
      simp only [h, Option.getD]
      omega

end SizeLemmas

/-! ## The normalizer (src/js/mocks/normalize.ts)

`normalize` accepts an already-canonical codegen descriptor, a real Convex
validator (recursed into by `normalizeValidator`), a raw non-array object
record of field → validator, or anything else (opaque fallback `any`).
The `Option` result is `none` exactly when the JS code would throw
(`members.map` with a non-array `members` in the `union` arm). -/

/-- The flag `const isOpt = v.isOptional === "optional"` of `normalizeValidator`. -/
def isOptionalFlag (v : JSValue) : Bool :=
  match v.lookup "isOptional" with
  | some (.str s) => s == "optional"
  | _ => false

mutual

/-- Function `normalize` from src/js/mocks/normalize.ts (lines 36-54). -/
def normalize (val : JSValue) : Option JSValue :=
  if isCodegenDescriptor val then some val
  else if isConvexValidator val then normalizeValidator val
  else
    match val with
    | .obj fs => do
        let props ← normalizeFields fs
        some (.obj [("type", .str "object"), ("properties", .obj props)])
    | _ => some (.obj [("type", .str "any")])
termination_by (sizeOf val, 1)

/-- Function `normalizeValidator` from src/js/mocks/normalize.ts (lines 56-136):
switch on `v.kind` (any non-string kind falls to the default arm), then wrap
in an `optional` node when `v.isOptional === "optional"`. -/
def normalizeValidator (v : JSValue) : Option JSValue := do
  let inner ←
    match hkind : v.lookup "kind" with
    | some (.str kind) =>
        -- Primitives: map directly
        if kind = "string" ∨ kind = "boolean" ∨ kind = "int64" ∨ kind = "null"
            ∨ kind = "any" ∨ kind = "bytes" then
          some (JSValue.obj [("type", .str kind)])
        -- Real Convex v.number() has kind "float64"; codegen.rs expects "number"
        else if kind = "float64" then
          some (JSValue.obj [("type", .str "number")])
        else if kind = "id" then
          some (JSValue.obj [("type", .str "id"),
                             ("tableName", (v.lookup "tableName").getD .undefined)])
        else if kind = "literal" then
          some (JSValue.obj [("type", .str "literal"),
                             ("value", (v.lookup "value").getD .undefined)])
        else if kind = "object" then do
          -- `if (fields) { for ... of Object.entries(fields) }`: an object is
          -- always truthy; a falsy or primitive `fields` contributes no entries.
          let props ←
            match hfields : v.lookup "fields" with
            | some (.obj gs) => normalizeFields gs
            | _ => some []
          some (JSValue.obj [("type", .str "object"), ("properties", .obj props)])
        else if kind = "array" then do
          let d ← normalize ((v.lookup "element").getD .undefined)
          some (JSValue.obj [("type", .str "array"), ("elements", d)])
        else if kind = "union" then
          -- `members.map(...)` throws when `members` is not an array.
          match hmembers : v.lookup "members" with
          | some (.arr xs) => do
              let ds ← normalizeList xs
              some (JSValue.obj [("type", .str "union"), ("variants", .arr ds)])
          | _ => none
        else if kind = "record" then do
          let kd ← normalize ((v.lookup "key").getD .undefined)
          let vd ← normalize ((v.lookup "value").getD .undefined)
          some (JSValue.obj [("type", .str "record"), ("keyType", kd),
                             ("valueType", vd)])
        else
          -- Unknown kind: treat as any
          some (JSValue.obj [("type", .str "any")])
    | _ => some (JSValue.obj [("type", .str "any")])
  -- Real Convex carries optionality as the isOptional side flag; codegen
  -- expects an explicit `optional` wrapper node.
  if isOptionalFlag v then
    some (JSValue.obj [("type", .str "optional"), ("inner", inner)])
  else
    some inner
termination_by (sizeOf v, 0)
decreasing_by
  all_goals
    first
    | decreasing_tactic
    | (simp_wf
       first
       | apply Prod.Lex.left
       | skip
       first
       | (have h1 := sizeOf_lt_of_lookup hfields
          simp only [JSValue.obj.sizeOf_spec] at h1
          omega)
       | (have h1 := sizeOf_lt_of_lookup hmembers
          simp only [JSValue.arr.sizeOf_spec] at h1
          omega)
       | exact sizeOf_lookup_getD_lt hkind (one_le_sizeOf_str _))

/-- The field loops of `normalize` (raw record) and of the `object` arm of
`normalizeValidator`: each field value is normalized, names and order kept. -/
def normalizeFields : List (String × JSValue) → Option (List (String × JSValue))
  | [] => some []
  | (k, x) :: rest => do
      let d ← normalize x
      let ds ← normalizeFields rest
      some ((k, d) :: ds)
termination_by fs => (sizeOf fs, 0)

/-- The map `members.map((m) => normalize(m))` of the `union` arm. -/
def normalizeList : List JSValue → Option (List JSValue)
  | [] => some []
  | x :: rest => do
      let d ← normalize x
      let ds ← normalizeList rest
      some (d :: ds)
termination_by xs => (sizeOf xs, 0)

end


/-! ## Characterization lemmas for the normalizer -/

theorem isConvexValidator_lookup {v : JSValue} (h : isConvexValidator v = true) :
    v.lookup "isConvexValidator" = some (.bool true) := by
  unfold isConvexValidator at h
  cases hm : v.lookup "isConvexValidator" with
  | none => rw [hm] at h; simp at h
  | some w =>
      cases w <;> rw [hm] at h <;> simp at h
      case bool b => cases b <;> simp_all

theorem isCodegenDescriptor_false_of_validator {v : JSValue}
    (h : isConvexValidator v = true) : isCodegenDescriptor v = false := by
  have hm := isConvexValidator_lookup h
  unfold isCodegenDescriptor
  rw [hm]
  simp [JSValue.truthy]

/-- Branch 1 of `normalize`: an already-canonical descriptor is returned
unchanged. -/
theorem normalize_of_codegen {val : JSValue}
    (h : isCodegenDescriptor val = true) : normalize val = some val := by
  rw [normalize.eq_def, h]
  simp

/-- Branch 2 of `normalize`: a real Convex validator is handed to
`normalizeValidator`. -/
theorem normalize_of_validator {val : JSValue}
    (h : isConvexValidator val = true) : normalize val = normalizeValidator val := by
  rw [normalize.eq_def, isCodegenDescriptor_false_of_validator h, h]
  simp

/-- Branch 3 of `normalize`: a raw record is wrapped as an `object`
descriptor with each field normalized. -/
theorem normalize_of_raw_obj {fs : List (String × JSValue)}
    (h1 : isCodegenDescriptor (.obj fs) = false)
    (h2 : isConvexValidator (.obj fs) = false) :
    normalize (.obj fs) =
      (normalizeFields fs).bind fun props =>
        some (.obj [("type", .str "object"), ("properties", .obj props)]) := by
  rw [normalize.eq_def, h1, h2]
  simp [Option.bind_eq_bind]

theorem isCodegenDescriptor_false_of_not_obj {v : JSValue}
    (h : ∀ fs, v ≠ .obj fs) : isCodegenDescriptor v = false := by
  cases v <;> simp [isCodegenDescriptor, JSValue.isNull, JSValue.isObjectType,
    JSValue.lookup, JSValue.truthy]
  case obj fs => exact absurd rfl (h fs)

theorem isConvexValidator_false_of_not_obj {v : JSValue}
    (h : ∀ fs, v ≠ .obj fs) : isConvexValidator v = false := by
  cases v <;> simp [isConvexValidator, JSValue.isNull, JSValue.isObjectType,
    JSValue.lookup]
  case obj fs => exact absurd rfl (h fs)

/-- Branch 4 of `normalize`: anything that is not an object (and hence matches
none of the three recognized shapes) falls back to the `any` descriptor. -/
theorem normalize_of_atom {v : JSValue} (h : ∀ fs, v ≠ .obj fs) :
    normalize v = some (.obj [("type", .str "any")]) := by
  rw [normalize.eq_def, isCodegenDescriptor_false_of_not_obj h,
      isConvexValidator_false_of_not_obj h]
  cases v <;> simp
  case obj fs => exact absurd rfl (h fs)

theorem normalizeFields_nil : normalizeFields [] = some [] := by
  rw [normalizeFields.eq_def]

theorem normalizeFields_cons (k : String) (x : JSValue)
    (rest : List (String × JSValue)) :
    normalizeFields ((k, x) :: rest) =
      (normalize x).bind fun d =>
        (normalizeFields rest).bind fun ds => some ((k, d) :: ds) := by
  rw [normalizeFields.eq_def]
  simp [Option.bind_eq_bind]

theorem normalizeList_nil : normalizeList [] = some [] := by
  rw [normalizeList.eq_def]

theorem normalizeList_cons (x : JSValue) (rest : List JSValue) :
    normalizeList (x :: rest) =
      (normalize x).bind fun d =>
        (normalizeList rest).bind fun ds => some (d :: ds) := by
  rw [normalizeList.eq_def]
  simp [Option.bind_eq_bind]

/-! ## Per-kind lemmas for `normalizeValidator` -/

/-- The final optional-wrapping step of `normalizeValidator` (normalize.ts
lines 129-135), as a function of the validator and the built inner node. -/
def applyOpt (v inner : JSValue) : JSValue :=
  if isOptionalFlag v then .obj [("type", .str "optional"), ("inner", inner)]
  else inner

theorem nv_prim {v : JSValue} {kind : String}
    (hk : v.lookup "kind" = some (.str kind))
    (hp : kind = "string" ∨ kind = "boolean" ∨ kind = "int64" ∨ kind = "null"
          ∨ kind = "any" ∨ kind = "bytes") :
    normalizeValidator v = some (applyOpt v (.obj [("type", .str kind)])) := by
  rw [normalizeValidator.eq_def, hk]
  dsimp only
  rw [if_pos hp]
  cases hopt : isOptionalFlag v <;> simp [applyOpt, hopt]

theorem nv_float64 {v : JSValue}
    (hk : v.lookup "kind" = some (.str "float64")) :
    normalizeValidator v = some (applyOpt v (.obj [("type", .str "number")])) := by
  rw [normalizeValidator.eq_def, hk]
  dsimp only
  simp only [String.reduceEq, or_self, if_false, if_true]
  cases hopt : isOptionalFlag v <;> simp [applyOpt, hopt]

theorem nv_id {v : JSValue} (hk : v.lookup "kind" = some (.str "id")) :
    normalizeValidator v = some (applyOpt v
      (.obj [("type", .str "id"),
             ("tableName", (v.lookup "tableName").getD .undefined)])) := by
  rw [normalizeValidator.eq_def, hk]
  dsimp only
  cases hopt : isOptionalFlag v <;> simp [applyOpt, hopt]

theorem nv_literal {v : JSValue} (hk : v.lookup "kind" = some (.str "literal")) :
    normalizeValidator v = some (applyOpt v
      (.obj [("type", .str "literal"),
             ("value", (v.lookup "value").getD .undefined)])) := by
  rw [normalizeValidator.eq_def, hk]
  dsimp only
  cases hopt : isOptionalFlag v <;> simp [applyOpt, hopt]

theorem nv_object {v : JSValue} {gs : List (String × JSValue)}
    (hk : v.lookup "kind" = some (.str "object"))
    (hf : v.lookup "fields" = some (.obj gs)) :
    normalizeValidator v =
      (normalizeFields gs).bind fun hs =>
        some (applyOpt v (.obj [("type", .str "object"),
                                ("properties", .obj hs)])) := by
  rw [normalizeValidator.eq_def, hk]
  dsimp only
  rw [hf]
  dsimp only
  cases hn : normalizeFields gs <;>
    cases hopt : isOptionalFlag v <;> simp [applyOpt, hopt, hn]

theorem nv_object_nofields {v : JSValue}
    (hk : v.lookup "kind" = some (.str "object"))
    (hf : ∀ gs, v.lookup "fields" ≠ some (.obj gs)) :
    normalizeValidator v =
      some (applyOpt v (.obj [("type", .str "object"),
                              ("properties", .obj [])])) := by
  rw [normalizeValidator.eq_def, hk]
  dsimp only
  cases hfl : v.lookup "fields" with
  | none =>
      dsimp only
      cases hopt : isOptionalFlag v <;> simp [applyOpt, hopt]
  | some w =>
      cases w
      case obj gs => exact absurd hfl (hf gs)
      all_goals
        (dsimp only
         cases hopt : isOptionalFlag v <;> simp [applyOpt, hopt])

theorem nv_array {v : JSValue} (hk : v.lookup "kind" = some (.str "array")) :
    normalizeValidator v =
      (normalize ((v.lookup "element").getD .undefined)).bind fun d =>
        some (applyOpt v (.obj [("type", .str "array"), ("elements", d)])) := by
  rw [normalizeValidator.eq_def, hk]
  dsimp only
  cases hn : normalize ((v.lookup "element").getD .undefined) <;>
    cases hopt : isOptionalFlag v <;> simp [applyOpt, hopt, hn]

theorem nv_union {v : JSValue} {xs : List JSValue}
    (hk : v.lookup "kind" = some (.str "union"))
    (hm : v.lookup "members" = some (.arr xs)) :
    normalizeValidator v =
      (normalizeList xs).bind fun ds =>
        some (applyOpt v (.obj [("type", .str "union"),
                                ("variants", .arr ds)])) := by
  rw [normalizeValidator.eq_def, hk]
  dsimp only
  rw [hm]
  dsimp only
  cases hn : normalizeList xs <;>
    cases hopt : isOptionalFlag v <;> simp [applyOpt, hopt, hn]

theorem nv_union_throw {v : JSValue}
    (hk : v.lookup "kind" = some (.str "union"))
    (hm : ∀ xs, v.lookup "members" ≠ some (.arr xs)) :
    normalizeValidator v = none := by
  rw [normalizeValidator.eq_def, hk]
  dsimp only
  cases hml : v.lookup "members" with
  | none => simp
  | some w =>
      cases w
      case arr xs => exact absurd hml (hm xs)
      all_goals simp

theorem nv_record {v : JSValue} (hk : v.lookup "kind" = some (.str "record")) :
    normalizeValidator v =
      (normalize ((v.lookup "key").getD .undefined)).bind fun kd =>
        (normalize ((v.lookup "value").getD .undefined)).bind fun vd =>
          some (applyOpt v (.obj [("type", .str "record"), ("keyType", kd),
                                  ("valueType", vd)])) := by
  rw [normalizeValidator.eq_def, hk]
  dsimp only
  cases hn1 : normalize ((v.lookup "key").getD .undefined) <;>
    cases hn2 : normalize ((v.lookup "value").getD .undefined) <;>
      cases hopt : isOptionalFlag v <;> simp [applyOpt, hopt, hn1, hn2]

theorem nv_unknown {v : JSValue} {kind : String}
    (hk : v.lookup "kind" = some (.str kind))
    (hp : kind ∉ (["string", "boolean", "int64", "null", "any", "bytes",
                   "float64", "id", "literal", "object", "array", "union",
                   "record"] : List String)) :
    normalizeValidator v = some (applyOpt v (.obj [("type", .str "any")])) := by
  simp only [List.mem_cons, List.not_mem_nil, or_false, not_or] at hp
  obtain ⟨h1, h2, h3, h4, h5, h6, h7, h8, h9, h10, h11, h12, h13⟩ := hp
  rw [normalizeValidator.eq_def, hk]
  dsimp only
  rw [if_neg (by tauto), if_neg h7, if_neg h8, if_neg h9, if_neg h10,
      if_neg h11, if_neg h12, if_neg h13]
  cases hopt : isOptionalFlag v <;> simp [applyOpt, hopt]

theorem nv_kind_not_str {v : JSValue}
    (hk : ∀ s, v.lookup "kind" ≠ some (.str s)) :
    normalizeValidator v = some (applyOpt v (.obj [("type", .str "any")])) := by
  rw [normalizeValidator.eq_def]
  cases hkind : v.lookup "kind" with
  | none =>
      dsimp only
      cases hopt : isOptionalFlag v <;> simp [applyOpt, hopt]
  | some w =>
      cases w
      case str s => exact absurd hkind (hk s)
      all_goals
        (dsimp only
         cases hopt : isOptionalFlag v <;> simp [applyOpt, hopt])

/-- Every successful `normalizeValidator` result is the optional-wrapping of
an inner object descriptor whose `type` is a string other than `"optional"`
and which carries no `isConvexValidator` marker. -/
theorem normalizeValidator_result {v r : JSValue}
    (h : normalizeValidator v = some r) :
    ∃ t rest, r = applyOpt v (JSValue.obj (("type", JSValue.str t) :: rest))
      ∧ t ≠ "optional"
      ∧ JSValue.assocLookup rest "isConvexValidator" = none := by
  by_cases hexk : ∃ kind, v.lookup "kind" = some (JSValue.str kind)
  case neg =>
    rw [nv_kind_not_str (by push_neg at hexk; exact hexk)] at h
    injection h with h
    exact ⟨"any", [], h.symm, by simp, by simp [JSValue.assocLookup]⟩
  case pos =>
  obtain ⟨kind, hkind⟩ := hexk
  by_cases hks : kind = "string" ∨ kind = "boolean" ∨ kind = "int64"
      ∨ kind = "null" ∨ kind = "any" ∨ kind = "bytes"
  · rw [nv_prim hkind hks] at h
    injection h with h
    refine ⟨kind, [], h.symm, ?_, by simp [JSValue.assocLookup]⟩
    rcases hks with rfl | rfl | rfl | rfl | rfl | rfl <;> simp
  by_cases hf64 : kind = "float64"
  · subst hf64
    rw [nv_float64 hkind] at h
    injection h with h
    exact ⟨"number", [], h.symm, by simp, by simp [JSValue.assocLookup]⟩
  by_cases hid : kind = "id"
  · subst hid
    rw [nv_id hkind] at h
    injection h with h
    exact ⟨"id", [("tableName", (v.lookup "tableName").getD .undefined)],
           h.symm, by simp, by simp [JSValue.assocLookup]⟩
  by_cases hlit : kind = "literal"
  · subst hlit
    rw [nv_literal hkind] at h
    injection h with h
    exact ⟨"literal", [("value", (v.lookup "value").getD .undefined)],
           h.symm, by simp, by simp [JSValue.assocLookup]⟩
  by_cases hobj : kind = "object"
  · subst hobj
    by_cases hexf : ∃ gs, v.lookup "fields" = some (JSValue.obj gs)
    · obtain ⟨gs, hfl⟩ := hexf
      rw [nv_object hkind hfl] at h
      cases hn : normalizeFields gs with
      | none => rw [hn] at h; simp at h
      | some hs =>
          rw [hn] at h
          simp only [Option.some_bind] at h
          injection h with h
          exact ⟨"object", [("properties", .obj hs)], h.symm,
                 by simp, by simp [JSValue.assocLookup]⟩
    · rw [nv_object_nofields hkind (by push_neg at hexf; exact hexf)] at h
      injection h with h
      exact ⟨"object", [("properties", .obj [])], h.symm,
             by simp, by simp [JSValue.assocLookup]⟩
  by_cases harr : kind = "array"
  · subst harr
    rw [nv_array hkind] at h
    cases hn : normalize ((v.lookup "element").getD .undefined) with
    | none => rw [hn] at h; simp at h
    | some d =>
        rw [hn] at h
        simp only [Option.some_bind] at h
        injection h with h
        exact ⟨"array", [("elements", d)], h.symm,
               by simp, by simp [JSValue.assocLookup]⟩
  by_cases huni : kind = "union"
  · subst huni
    by_cases hexm : ∃ xs, v.lookup "members" = some (JSValue.arr xs)
    · obtain ⟨xs, hml⟩ := hexm
      rw [nv_union hkind hml] at h
      cases hn : normalizeList xs with
      | none => rw [hn] at h; simp at h
      | some ds =>
          rw [hn] at h
          simp only [Option.some_bind] at h
          injection h with h
          exact ⟨"union", [("variants", .arr ds)], h.symm,
                 by simp, by simp [JSValue.assocLookup]⟩
    · rw [nv_union_throw hkind (by push_neg at hexm; exact hexm)] at h
      cases h
  by_cases hrec : kind = "record"
  · subst hrec
    rw [nv_record hkind] at h
    cases hn1 : normalize ((v.lookup "key").getD .undefined) with
    | none => rw [hn1] at h; simp at h
    | some kd =>
        cases hn2 : normalize ((v.lookup "value").getD .undefined) with
        | none => rw [hn1, hn2] at h; simp at h
        | some vd =>
            rw [hn1, hn2] at h
            simp only [Option.some_bind] at h
            injection h with h
            exact ⟨"record", [("keyType", kd), ("valueType", vd)],
                   h.symm, by simp, by simp [JSValue.assocLookup]⟩
  rw [nv_unknown hkind (by
      simp only [List.mem_cons, List.not_mem_nil, or_false, not_or]
      simp only [not_or] at hks
      tauto)] at h
  injection h with h
  exact ⟨"any", [], h.symm, by simp, by simp [JSValue.assocLookup]⟩

theorem isCodegenDescriptor_applyOpt {v : JSValue} {t : String}
    {rest : List (String × JSValue)}
    (hm : JSValue.assocLookup rest "isConvexValidator" = none) :
    isCodegenDescriptor (applyOpt v (JSValue.obj (("type", JSValue.str t) :: rest)))
      = true := by
  unfold applyOpt
  cases hopt : isOptionalFlag v
  · simp only [Bool.false_eq_true, if_false]
    simp [isCodegenDescriptor, JSValue.isNull, JSValue.isObjectType,
          JSValue.lookup, JSValue.assocLookup, hm, JSValue.truthy]
  · simp only [if_true]
    simp [isCodegenDescriptor, JSValue.isNull, JSValue.isObjectType,
          JSValue.lookup, JSValue.assocLookup, JSValue.truthy]

/-- Everything `normalize` returns is itself an already-canonical codegen
descriptor (the C10 invariant, first half). -/
theorem normalize_result_isCodegen {val r : JSValue}
    (h : normalize val = some r) : isCodegenDescriptor r = true := by
  by_cases hc : isCodegenDescriptor val = true
  · rw [normalize_of_codegen hc] at h
    injection h with h
    rw [← h]; exact hc
  by_cases hv : isConvexValidator val = true
  · rw [normalize_of_validator hv] at h
    obtain ⟨t, rest, rfl, -, hm⟩ := normalizeValidator_result h
    exact isCodegenDescriptor_applyOpt hm
  · cases val with
    | obj fs =>
        rw [normalize_of_raw_obj (by simpa using hc) (by simpa using hv)] at h
        cases hn : normalizeFields fs with
        | none => rw [hn] at h; simp at h
        | some props =>
            rw [hn] at h
            simp only [Option.some_bind] at h
            injection h with h
            rw [← h]
            simp [isCodegenDescriptor, JSValue.isNull, JSValue.isObjectType,
                  JSValue.lookup, JSValue.assocLookup, JSValue.truthy]
    | null =>
        rw [normalize_of_atom (by simp)] at h
        injection h with h
        rw [← h]
        simp [isCodegenDescriptor, JSValue.isNull, JSValue.isObjectType,
              JSValue.lookup, JSValue.assocLookup, JSValue.truthy]
    | undefined =>
        rw [normalize_of_atom (by simp)] at h
        injection h with h
        rw [← h]
        simp [isCodegenDescriptor, JSValue.isNull, JSValue.isObjectType,
              JSValue.lookup, JSValue.assocLookup, JSValue.truthy]
    | bool b =>
        rw [normalize_of_atom (by simp)] at h
        injection h with h
        rw [← h]
        simp [isCodegenDescriptor, JSValue.isNull, JSValue.isObjectType,
              JSValue.lookup, JSValue.assocLookup, JSValue.truthy]
    | num n =>
        rw [normalize_of_atom (by simp)] at h
        injection h with h
        rw [← h]
        simp [isCodegenDescriptor, JSValue.isNull, JSValue.isObjectType,
              JSValue.lookup, JSValue.assocLookup, JSValue.truthy]
    | str s =>
        rw [normalize_of_atom (by simp)] at h
        injection h with h
        rw [← h]
        simp [isCodegenDescriptor, JSValue.isNull, JSValue.isObjectType,
              JSValue.lookup, JSValue.assocLookup, JSValue.truthy]
    | arr xs =>
        rw [normalize_of_atom (by simp)] at h
        injection h with h
        rw [← h]
        simp [isCodegenDescriptor, JSValue.isNull, JSValue.isObjectType,
              JSValue.lookup, JSValue.assocLookup, JSValue.truthy]

/-! ## List-level lemmas for the field and member traversals -/

theorem normalizeFields_of_canonical :
    ∀ {fs : List (String × JSValue)},
      (∀ p ∈ fs, isCodegenDescriptor p.2 = true) →
      normalizeFields fs = some fs
  | [], _ => normalizeFields_nil
  | (k, x) :: rest, h => by
      rw [normalizeFields_cons,
          normalize_of_codegen (h (k, x) (List.mem_cons_self _ _)),
          normalizeFields_of_canonical (fun p hp => h p (List.mem_cons_of_mem _ hp))]
      rfl

theorem normalizeFields_forall2 :
    ∀ {fs gs : List (String × JSValue)}, normalizeFields fs = some gs →
      List.Forall₂ (fun p q => p.1 = q.1 ∧ normalize p.2 = some q.2) fs gs
  | [], gs, h => by
      rw [normalizeFields_nil] at h
      injection h with h
      subst h
      exact List.Forall₂.nil
  | (k, x) :: rest, gs, h => by
      rw [normalizeFields_cons] at h
      cases hn : normalize x with
      | none => rw [hn] at h; simp at h
      | some d =>
          rw [hn] at h
          simp only [Option.some_bind] at h
          cases hr : normalizeFields rest with
          | none => rw [hr] at h; simp at h
          | some ds =>
              rw [hr] at h
              simp only [Option.some_bind] at h
              injection h with h
              subst h
              exact List.Forall₂.cons ⟨rfl, hn⟩ (normalizeFields_forall2 hr)

theorem normalizeList_forall2 :
    ∀ {xs ds : List JSValue}, normalizeList xs = some ds →
      List.Forall₂ (fun x d => normalize x = some d) xs ds
  | [], ds, h => by
      rw [normalizeList_nil] at h
      injection h with h
      subst h
      exact List.Forall₂.nil
  | x :: rest, ds, h => by
      rw [normalizeList_cons] at h
      cases hn : normalize x with
      | none => rw [hn] at h; simp at h
      | some d =>
          rw [hn] at h
          simp only [Option.some_bind] at h
          cases hr : normalizeList rest with
          | none => rw [hr] at h; simp at h
          | some es =>
              rw [hr] at h
              simp only [Option.some_bind] at h
              injection h with h
              subst h
              exact List.Forall₂.cons hn (normalizeList_forall2 hr)

theorem normalizeFields_exists :
    ∀ {fs : List (String × JSValue)},
      (∀ p ∈ fs, ∃ d, normalize p.2 = some d) →
      ∃ gs, normalizeFields fs = some gs
  | [], _ => ⟨[], normalizeFields_nil⟩
  | (k, x) :: rest, h => by
      obtain ⟨d, hd⟩ := h (k, x) (List.mem_cons_self _ _)
      obtain ⟨gs, hgs⟩ :=
        normalizeFields_exists (fun p hp => h p (List.mem_cons_of_mem _ hp))
      exact ⟨(k, d) :: gs, by rw [normalizeFields_cons, hd, hgs]; rfl⟩

theorem normalizeList_exists :
    ∀ {xs : List JSValue},
      (∀ x ∈ xs, ∃ d, normalize x = some d) →
      ∃ ds, normalizeList xs = some ds
  | [], _ => ⟨[], normalizeList_nil⟩
  | x :: rest, h => by
      obtain ⟨d, hd⟩ := h x (List.mem_cons_self _ _)
      obtain ⟨ds, hds⟩ :=
        normalizeList_exists (fun y hy => h y (List.mem_cons_of_mem _ hy))
      exact ⟨d :: ds, by rw [normalizeList_cons, hd, hds]; rfl⟩

/-- Normalizing a field map preserves first-match lookups pointwise. -/
theorem normalizeFields_assocLookup {fs gs : List (String × JSValue)}
    (h : normalizeFields fs = some gs) {key : String} {x : JSValue}
    (hx : JSValue.assocLookup fs key = some x) :
    ∃ d, normalize x = some d ∧ JSValue.assocLookup gs key = some d := by
  have hf := normalizeFields_forall2 h
  clear h
  revert hx
  induction hf with
  | nil => intro hx; simp [JSValue.assocLookup] at hx
  | cons hpq htail ih =>
      rename_i p q fs' gs'
      intro hx
      obtain ⟨p1, p2⟩ := p
      obtain ⟨q1, q2⟩ := q
      obtain ⟨hks, hnm⟩ := hpq
      subst hks
      by_cases hk : p1 = key
      · subst hk
        simp [JSValue.assocLookup] at hx
        subst hx
        exact ⟨q2, hnm, by simp [JSValue.assocLookup]⟩
      · simp [JSValue.assocLookup, hk] at hx ⊢
        exact ih hx

theorem assocLookup_mem {fs : List (String × JSValue)} {key : String}
    {x : JSValue} (h : JSValue.assocLookup fs key = some x) : (key, x) ∈ fs := by
  induction fs with
  | nil => simp [JSValue.assocLookup] at h
  | cons p rest ih =>
      obtain ⟨k, v⟩ := p
      by_cases hk : k = key
      · subst hk
        simp [JSValue.assocLookup] at h
        subst h
        exact List.mem_cons_self _ _
      · simp [JSValue.assocLookup, hk] at h
        exact List.mem_cons_of_mem _ (ih h)

theorem isCodegenDescriptor_obj {x : JSValue}
    (h : isCodegenDescriptor x = true) : ∃ gs, x = JSValue.obj gs := by
  cases x <;>
    simp_all [isCodegenDescriptor, JSValue.isNull, JSValue.isObjectType,
              JSValue.lookup, JSValue.truthy]

/-- A raw field record whose values are canonical descriptors is itself
neither a canonical descriptor nor a real validator. -/
theorem raw_record_not_codegen {fs : List (String × JSValue)}
    (h : ∀ p ∈ fs, isCodegenDescriptor p.2 = true) :
    isCodegenDescriptor (JSValue.obj fs) = false := by
  unfold isCodegenDescriptor
  cases hl : JSValue.lookup (JSValue.obj fs) "type" with
  | none => simp [hl]
  | some x =>
      obtain ⟨gs, rfl⟩ :=
        isCodegenDescriptor_obj (h ("type", x) (assocLookup_mem hl))
      simp [hl]

theorem raw_record_not_validator {fs : List (String × JSValue)}
    (h : ∀ p ∈ fs, isCodegenDescriptor p.2 = true) :
    isConvexValidator (JSValue.obj fs) = false := by
  unfold isConvexValidator
  cases hl : JSValue.lookup (JSValue.obj fs) "isConvexValidator" with
  | none => simp [hl]
  | some x =>
      obtain ⟨gs, rfl⟩ :=
        isCodegenDescriptor_obj (h ("isConvexValidator", x) (assocLookup_mem hl))
      simp [hl]

theorem forall2_map_fst {R : (String × JSValue) → (String × JSValue) → Prop}
    (hR : ∀ p q, R p q → p.1 = q.1) :
    ∀ {fs gs : List (String × JSValue)}, List.Forall₂ R fs gs →
      gs.map Prod.fst = fs.map Prod.fst := by
  intro fs gs h
  induction h with
  | nil => rfl
  | cons hpq htail ih =>
      rename_i p q fs' gs'
      simp [List.map_cons, ih, hR p q hpq]

/-! ## The claims -/

/-- C9: `normalize` is idempotent on every already-canonical input `x`
(string-typed `type` discriminant, no real-validator marker):
`normalize (normalize x) = normalize x`. -/
theorem C9_normalize_idempotent_on_canonical {x : JSValue}
    (h : isCodegenDescriptor x = true) :
    (normalize x).bind normalize = normalize x := by
  rw [normalize_of_codegen h]
  simp [normalize_of_codegen h]

theorem C9_witness :
    isCodegenDescriptor (JSValue.obj [("type", JSValue.str "string")]) = true
    ∧ (normalize (JSValue.obj [("type", JSValue.str "string")])).bind normalize
        = normalize (JSValue.obj [("type", JSValue.str "string")]) :=
  ⟨rfl, C9_normalize_idempotent_on_canonical rfl⟩

/-- C10: every value `normalize` returns satisfies the already-canonical
detection predicate, so feeding any `normalize` output back into `normalize`
returns it unchanged. -/
theorem C10_normalize_output_canonical {v r : JSValue}
    (h : normalize v = some r) :
    isCodegenDescriptor r = true ∧ normalize r = some r := by
  have hc := normalize_result_isCodegen h
  exact ⟨hc, normalize_of_codegen hc⟩

theorem C10_witness :
    isCodegenDescriptor (JSValue.obj [("type", JSValue.str "any")]) = true
    ∧ normalize (JSValue.obj [("type", JSValue.str "any")])
        = some (JSValue.obj [("type", JSValue.str "any")]) :=
  @C10_normalize_output_canonical (JSValue.num 5)
    (JSValue.obj [("type", JSValue.str "any")]) (normalize_of_atom (by simp))

/-- C2 (counterexample): normalizing the real float64 validator yields the
descriptor with `type` discriminant `"number"`, not `"float64"` as the claim
states. -/
theorem C2_counterexample_float64_maps_to_number :
    normalize (JSValue.obj [("isConvexValidator", JSValue.bool true),
                            ("kind", JSValue.str "float64")])
      = some (JSValue.obj [("type", JSValue.str "number")])
    ∧ (JSValue.obj [("type", JSValue.str "number")]).lookup "type"
        = some (JSValue.str "number")
    ∧ ("number" : String) ≠ "float64" := by
  refine ⟨?_, rfl, by decide⟩
  have hv : isConvexValidator (JSValue.obj
      [("isConvexValidator", JSValue.bool true),
       ("kind", JSValue.str "float64")]) = true := rfl
  have hk : (JSValue.obj [("isConvexValidator", JSValue.bool true),
       ("kind", JSValue.str "float64")]).lookup "kind"
      = some (JSValue.str "float64") := rfl
  rw [normalize_of_validator hv, nv_float64 hk]
  rfl

/-- C2 (amended): for every real validator of kind `"float64"` that is not
flagged optional, `normalize` returns the canonical numeric descriptor, whose
`type` discriminant is `"number"`. -/
theorem C2_amended_float64_normalizes_to_number {v : JSValue}
    (hv : isConvexValidator v = true)
    (hk : v.lookup "kind" = some (JSValue.str "float64"))
    (hopt : isOptionalFlag v = false) :
    normalize v = some (JSValue.obj [("type", JSValue.str "number")]) := by
  rw [normalize_of_validator hv, nv_float64 hk]
  simp [applyOpt, hopt]

theorem C2_amended_witness :
    isConvexValidator (JSValue.obj [("isConvexValidator", JSValue.bool true),
                                    ("kind", JSValue.str "float64")]) = true
    ∧ normalize (JSValue.obj [("isConvexValidator", JSValue.bool true),
                              ("kind", JSValue.str "float64")])
        = some (JSValue.obj [("type", JSValue.str "number")]) :=
  ⟨rfl, C2_amended_float64_normalizes_to_number rfl rfl rfl⟩

/-- C3: a real validator flagged optional (whose own kind is not an optional
wrapper) normalizes to exactly one `optional` wrapper around a non-optional
inner descriptor; with the flag unset no wrapper is emitted. -/
theorem C3_optional_wrapped_exactly_once {v r : JSValue}
    (hv : isConvexValidator v = true)
    (hnk : v.lookup "kind" ≠ some (JSValue.str "optional"))
    (h : normalize v = some r) :
    (isOptionalFlag v = true →
       ∃ inner, r = JSValue.obj [("type", JSValue.str "optional"),
                                 ("inner", inner)]
         ∧ inner.lookup "type" ≠ some (JSValue.str "optional"))
    ∧ (isOptionalFlag v = false →
       r.lookup "type" ≠ some (JSValue.str "optional")) := by
  rw [normalize_of_validator hv] at h
  obtain ⟨t, rest, rfl, ht, hm⟩ := normalizeValidator_result h
  constructor
  · intro hopt
    refine ⟨JSValue.obj (("type", JSValue.str t) :: rest), by simp [applyOpt, hopt], ?_⟩
    simp [JSValue.lookup, JSValue.assocLookup]
    exact ht
  · intro hopt
    simp [applyOpt, hopt, JSValue.lookup, JSValue.assocLookup]
    exact ht

theorem C3_witness :
    isConvexValidator (JSValue.obj [("isConvexValidator", JSValue.bool true),
                                    ("kind", JSValue.str "string"),
                                    ("isOptional", JSValue.str "optional")]) = true
    ∧ (JSValue.obj [("isConvexValidator", JSValue.bool true),
                    ("kind", JSValue.str "string"),
                    ("isOptional", JSValue.str "optional")]).lookup "kind"
        ≠ some (JSValue.str "optional")
    ∧ normalize (JSValue.obj [("isConvexValidator", JSValue.bool true),
                              ("kind", JSValue.str "string"),
                              ("isOptional", JSValue.str "optional")])
        = some (JSValue.obj [("type", JSValue.str "optional"),
                             ("inner", JSValue.obj [("type", JSValue.str "string")])])
    ∧ (isOptionalFlag (JSValue.obj [("isConvexValidator", JSValue.bool true),
                                    ("kind", JSValue.str "string"),
                                    ("isOptional", JSValue.str "optional")]) = true →
       ∃ inner, JSValue.obj [("type", JSValue.str "optional"),
                             ("inner", JSValue.obj [("type", JSValue.str "string")])]
           = JSValue.obj [("type", JSValue.str "optional"), ("inner", inner)]
         ∧ inner.lookup "type" ≠ some (JSValue.str "optional")) := by
  have hv : isConvexValidator (JSValue.obj
      [("isConvexValidator", JSValue.bool true),
       ("kind", JSValue.str "string"),
       ("isOptional", JSValue.str "optional")]) = true := rfl
  have hk : (JSValue.obj [("isConvexValidator", JSValue.bool true),
       ("kind", JSValue.str "string"),
       ("isOptional", JSValue.str "optional")]).lookup "kind"
      = some (JSValue.str "string") := rfl
  have hne : (JSValue.obj [("isConvexValidator", JSValue.bool true),
       ("kind", JSValue.str "string"),
       ("isOptional", JSValue.str "optional")]).lookup "kind"
      ≠ some (JSValue.str "optional") := by
    rw [hk]; simp
  have hn : normalize (JSValue.obj [("isConvexValidator", JSValue.bool true),
                ("kind", JSValue.str "string"),
                ("isOptional", JSValue.str "optional")])
      = some (JSValue.obj [("type", JSValue.str "optional"),
                           ("inner", JSValue.obj [("type", JSValue.str "string")])]) := by
    rw [normalize_of_validator hv, nv_prim hk (Or.inl rfl)]
    rfl
  exact ⟨rfl, hne, hn, (C3_optional_wrapped_exactly_once hv hne hn).1⟩

/-- C6: any input matching none of the three recognized shapes normalizes to
the `any` descriptor without failing, and a real validator with an unknown
kind normalizes to `any` (optional-wrapped when flagged) rather than
aborting. -/
theorem C6_unrecognized_shapes_fall_back_to_any :
    (∀ v : JSValue, (∀ fs, v ≠ JSValue.obj fs) →
        normalize v = some (JSValue.obj [("type", JSValue.str "any")]))
    ∧ (∀ (v : JSValue) (kind : String), isConvexValidator v = true →
        v.lookup "kind" = some (JSValue.str kind) →
        kind ∉ (["string", "boolean", "int64", "null", "any", "bytes",
                 "float64", "id", "literal", "object", "array", "union",
                 "record"] : List String) →
        normalize v = some (applyOpt v (JSValue.obj [("type", JSValue.str "any")])))
    ∧ (∀ v : JSValue, isConvexValidator v = true →
        (∀ s, v.lookup "kind" ≠ some (JSValue.str s)) →
        normalize v = some (applyOpt v (JSValue.obj [("type", JSValue.str "any")]))) :=
  ⟨fun _ h => normalize_of_atom h,
   fun _ _ hv hk hu => by rw [normalize_of_validator hv, nv_unknown hk hu],
   fun _ hv hk => by rw [normalize_of_validator hv, nv_kind_not_str hk]⟩

theorem C6_witness :
    normalize (JSValue.num 7) = some (JSValue.obj [("type", JSValue.str "any")])
    ∧ normalize (JSValue.arr [JSValue.str "a"])
        = some (JSValue.obj [("type", JSValue.str "any")])
    ∧ normalize (JSValue.obj [("isConvexValidator", JSValue.bool true),
                              ("kind", JSValue.str "v64")])
        = some (applyOpt (JSValue.obj [("isConvexValidator", JSValue.bool true),
                                       ("kind", JSValue.str "v64")])
                         (JSValue.obj [("type", JSValue.str "any")])) :=
  ⟨C6_unrecognized_shapes_fall_back_to_any.1 _ (by simp),
   C6_unrecognized_shapes_fall_back_to_any.1 _ (by simp),
   C6_unrecognized_shapes_fall_back_to_any.2.1 _ "v64" rfl rfl (by decide)⟩

/-- C1: the three legal input shapes for one object validator — a raw field
mapping with canonical-descriptor values, the already-canonical object
descriptor over the same fields, and the real-library object validator with
the corresponding fields — all normalize to structurally identical canonical
object descriptors. -/
theorem C1_three_input_shapes_normalize_identically
    {fs : List (String × JSValue)}
    (h : ∀ p ∈ fs, isCodegenDescriptor p.2 = true) :
    normalize (JSValue.obj fs)
      = some (JSValue.obj [("type", JSValue.str "object"),
                           ("properties", JSValue.obj fs)])
    ∧ normalize (JSValue.obj [("type", JSValue.str "object"),
                              ("properties", JSValue.obj fs)])
      = some (JSValue.obj [("type", JSValue.str "object"),
                           ("properties", JSValue.obj fs)])
    ∧ normalize (JSValue.obj [("isConvexValidator", JSValue.bool true),
                              ("kind", JSValue.str "object"),
                              ("fields", JSValue.obj fs)])
      = some (JSValue.obj [("type", JSValue.str "object"),
                           ("properties", JSValue.obj fs)]) := by
  refine ⟨?_, ?_, ?_⟩
  · rw [normalize_of_raw_obj (raw_record_not_codegen h) (raw_record_not_validator h),
        normalizeFields_of_canonical h]
    rfl
  · apply normalize_of_codegen
    simp [isCodegenDescriptor, JSValue.isNull, JSValue.isObjectType,
          JSValue.lookup, JSValue.assocLookup, JSValue.truthy]
  · have hv : isConvexValidator (JSValue.obj
        [("isConvexValidator", JSValue.bool true),
         ("kind", JSValue.str "object"),
         ("fields", JSValue.obj fs)]) = true := rfl
    have hk : (JSValue.obj [("isConvexValidator", JSValue.bool true),
         ("kind", JSValue.str "object"),
         ("fields", JSValue.obj fs)]).lookup "kind"
        = some (JSValue.str "object") := rfl
    have hf : (JSValue.obj [("isConvexValidator", JSValue.bool true),
         ("kind", JSValue.str "object"),
         ("fields", JSValue.obj fs)]).lookup "fields"
        = some (JSValue.obj fs) := rfl
    have hflag : isOptionalFlag (JSValue.obj
        [("isConvexValidator", JSValue.bool true),
         ("kind", JSValue.str "object"),
         ("fields", JSValue.obj fs)]) = false := rfl
    rw [normalize_of_validator hv, nv_object hk hf,
        normalizeFields_of_canonical h]
    simp [applyOpt, hflag]

theorem C1_witness :
    (∀ p ∈ ([("score", JSValue.obj [("type", JSValue.str "number")])] :
        List (String × JSValue)), isCodegenDescriptor p.2 = true)
    ∧ normalize (JSValue.obj [("score", JSValue.obj [("type", JSValue.str "number")])])
        = some (JSValue.obj [("type", JSValue.str "object"),
            ("properties", JSValue.obj
              [("score", JSValue.obj [("type", JSValue.str "number")])])])
    ∧ normalize (JSValue.obj [("isConvexValidator", JSValue.bool true),
                              ("kind", JSValue.str "object"),
                              ("fields", JSValue.obj
                                [("score", JSValue.obj [("type", JSValue.str "number")])])])
        = some (JSValue.obj [("type", JSValue.str "object"),
            ("properties", JSValue.obj
              [("score", JSValue.obj [("type", JSValue.str "number")])])]) := by
  have h : ∀ p ∈ ([("score", JSValue.obj [("type", JSValue.str "number")])] :
      List (String × JSValue)), isCodegenDescriptor p.2 = true := by
    intro p hp
    simp only [List.mem_singleton] at hp
    subst hp
    rfl
  obtain ⟨h1, h2, h3⟩ := C1_three_input_shapes_normalize_identically h
  exact ⟨h, h1, h3⟩

/-- C5: normalization preserves declaration order — the field sequence of an
object (raw record or real object validator) and the member sequence of a
real union validator survive in the output in input order. -/
theorem C5_field_and_member_order_preserved :
    (∀ (fs : List (String × JSValue)) (r : JSValue),
        isCodegenDescriptor (JSValue.obj fs) = false →
        isConvexValidator (JSValue.obj fs) = false →
        normalize (JSValue.obj fs) = some r →
        ∃ gs, r = JSValue.obj [("type", JSValue.str "object"),
                               ("properties", JSValue.obj gs)]
          ∧ gs.map Prod.fst = fs.map Prod.fst
          ∧ List.Forall₂ (fun p q => p.1 = q.1 ∧ normalize p.2 = some q.2) fs gs)
    ∧ (∀ (v : JSValue) (gs : List (String × JSValue)) (r : JSValue),
        isConvexValidator v = true →
        v.lookup "kind" = some (JSValue.str "object") →
        v.lookup "fields" = some (JSValue.obj gs) →
        isOptionalFlag v = false →
        normalize v = some r →
        ∃ hs, r = JSValue.obj [("type", JSValue.str "object"),
                               ("properties", JSValue.obj hs)]
          ∧ hs.map Prod.fst = gs.map Prod.fst
          ∧ List.Forall₂ (fun p q => p.1 = q.1 ∧ normalize p.2 = some q.2) gs hs)
    ∧ (∀ (v : JSValue) (xs : List JSValue) (r : JSValue),
        isConvexValidator v = true →
        v.lookup "kind" = some (JSValue.str "union") →
        v.lookup "members" = some (JSValue.arr xs) →
        isOptionalFlag v = false →
        normalize v = some r →
        ∃ ds, r = JSValue.obj [("type", JSValue.str "union"),
                               ("variants", JSValue.arr ds)]
          ∧ ds.length = xs.length
          ∧ List.Forall₂ (fun x d => normalize x = some d) xs ds) := by
  refine ⟨?_, ?_, ?_⟩
  · intro fs r h1 h2 hn
    rw [normalize_of_raw_obj h1 h2] at hn
    cases hf : normalizeFields fs with
    | none => rw [hf] at hn; simp at hn
    | some gs =>
        rw [hf] at hn
        simp only [Option.some_bind] at hn
        injection hn with hn
        refine ⟨gs, hn.symm, ?_, normalizeFields_forall2 hf⟩
        exact forall2_map_fst (fun p q hpq => hpq.1) (normalizeFields_forall2 hf)
  · intro v gs r hv hk hf hflag hn
    rw [normalize_of_validator hv, nv_object hk hf] at hn
    cases hgs : normalizeFields gs with
    | none => rw [hgs] at hn; simp at hn
    | some hs =>
        rw [hgs] at hn
        simp only [Option.some_bind] at hn
        injection hn with hn
        refine ⟨hs, ?_, ?_, normalizeFields_forall2 hgs⟩
        · rw [← hn]; simp [applyOpt, hflag]
        · exact forall2_map_fst (fun p q hpq => hpq.1) (normalizeFields_forall2 hgs)
  · intro v xs r hv hk hm hflag hn
    rw [normalize_of_validator hv, nv_union hk hm] at hn
    cases hxs : normalizeList xs with
    | none => rw [hxs] at hn; simp at hn
    | some ds =>
        rw [hxs] at hn
        simp only [Option.some_bind] at hn
        injection hn with hn
        refine ⟨ds, ?_, ?_, normalizeList_forall2 hxs⟩
        · rw [← hn]; simp [applyOpt, hflag]
        · exact (List.Forall₂.length_eq (normalizeList_forall2 hxs)).symm

theorem C5_witness :
    isCodegenDescriptor (JSValue.obj
      [("b", JSValue.obj [("type", JSValue.str "string")]),
       ("a", JSValue.obj [("type", JSValue.str "number")]),
       ("c", JSValue.obj [("type", JSValue.str "boolean")])]) = false
    ∧ isConvexValidator (JSValue.obj
      [("b", JSValue.obj [("type", JSValue.str "string")]),
       ("a", JSValue.obj [("type", JSValue.str "number")]),
       ("c", JSValue.obj [("type", JSValue.str "boolean")])]) = false
    ∧ normalize (JSValue.obj
      [("b", JSValue.obj [("type", JSValue.str "string")]),
       ("a", JSValue.obj [("type", JSValue.str "number")]),
       ("c", JSValue.obj [("type", JSValue.str "boolean")])])
      = some (JSValue.obj [("type", JSValue.str "object"),
          ("properties", JSValue.obj
            [("b", JSValue.obj [("type", JSValue.str "string")]),
             ("a", JSValue.obj [("type", JSValue.str "number")]),
             ("c", JSValue.obj [("type", JSValue.str "boolean")])])])
    ∧ ∃ gs, JSValue.obj [("type", JSValue.str "object"),
          ("properties", JSValue.obj
            [("b", JSValue.obj [("type", JSValue.str "string")]),
             ("a", JSValue.obj [("type", JSValue.str "number")]),
             ("c", JSValue.obj [("type", JSValue.str "boolean")])])]
        = JSValue.obj [("type", JSValue.str "object"),
                       ("properties", JSValue.obj gs)]
        ∧ gs.map Prod.fst = ["b", "a", "c"] := by
  have hcan : ∀ p ∈ ([("b", JSValue.obj [("type", JSValue.str "string")]),
       ("a", JSValue.obj [("type", JSValue.str "number")]),
       ("c", JSValue.obj [("type", JSValue.str "boolean")])] :
       List (String × JSValue)), isCodegenDescriptor p.2 = true := by
    intro p hp
    simp only [List.mem_cons, List.not_mem_nil, or_false] at hp
    rcases hp with rfl | rfl | rfl <;> rfl
  have h1 : isCodegenDescriptor (JSValue.obj
      [("b", JSValue.obj [("type", JSValue.str "string")]),
       ("a", JSValue.obj [("type", JSValue.str "number")]),
       ("c", JSValue.obj [("type", JSValue.str "boolean")])]) = false := rfl
  have h2 : isConvexValidator (JSValue.obj
      [("b", JSValue.obj [("type", JSValue.str "string")]),
       ("a", JSValue.obj [("type", JSValue.str "number")]),
       ("c", JSValue.obj [("type", JSValue.str "boolean")])]) = false := rfl
  have hn : normalize (JSValue.obj
      [("b", JSValue.obj [("type", JSValue.str "string")]),
       ("a", JSValue.obj [("type", JSValue.str "number")]),
       ("c", JSValue.obj [("type", JSValue.str "boolean")])])
      = some (JSValue.obj [("type", JSValue.str "object"),
          ("properties", JSValue.obj
            [("b", JSValue.obj [("type", JSValue.str "string")]),
             ("a", JSValue.obj [("type", JSValue.str "number")]),
             ("c", JSValue.obj [("type", JSValue.str "boolean")])])]) := by
    rw [normalize_of_raw_obj h1 h2, normalizeFields_of_canonical hcan]
    rfl
  obtain ⟨gs, hgs, hkeys, -⟩ :=
    C5_field_and_member_order_preserved.1 _ _ h1 h2 hn
  exact ⟨h1, h2, hn, gs, hgs, by rw [hkeys]; rfl⟩

/-- Member-wise shape preservation for tagged unions: pointwise normalization
results keep each member an object descriptor whose `type` field is the
normalized literal. -/
theorem tagged_union_members_shape :
    ∀ {xs ds : List JSValue},
      List.Forall₂ (fun x d => normalize x = some d) xs ds →
      (∀ x ∈ xs, isConvexValidator x = true
          ∧ x.lookup "kind" = some (JSValue.str "object")
          ∧ isOptionalFlag x = false
          ∧ ∃ gs, x.lookup "fields" = some (JSValue.obj gs)
              ∧ (∃ hs, normalizeFields gs = some hs)
              ∧ ∃ lit, JSValue.assocLookup gs "type" = some lit
                  ∧ isConvexValidator lit = true
                  ∧ lit.lookup "kind" = some (JSValue.str "literal")
                  ∧ isOptionalFlag lit = false) →
      List.Forall₂ (fun x d =>
          ∀ gs lit, x.lookup "fields" = some (JSValue.obj gs) →
            JSValue.assocLookup gs "type" = some lit →
            ∃ hs, d = JSValue.obj [("type", JSValue.str "object"),
                                   ("properties", JSValue.obj hs)]
              ∧ JSValue.assocLookup hs "type"
                  = some (JSValue.obj [("type", JSValue.str "literal"),
                      ("value", (lit.lookup "value").getD JSValue.undefined)]))
        xs ds := by
  intro xs ds h
  induction h with
  | nil => intro _; exact List.Forall₂.nil
  | cons hxd htail ih =>
      rename_i x d xs' ds'
      intro hmem
      refine List.Forall₂.cons ?_ (ih fun y hy => hmem y (List.mem_cons_of_mem _ hy))
      intro gs lit hgs hlit
      obtain ⟨hxv, hxk, hxopt, gs0, hxf, ⟨hs, hhs⟩, lit0, hlit0, hlv, hlk, hlopt⟩ :=
        hmem x (List.mem_cons_self _ _)
      rw [hgs] at hxf
      injection hxf with hxf
      injection hxf with hxf
      subst hxf
      rw [hlit] at hlit0
      injection hlit0 with hlit0
      subst hlit0
      have hd : normalize x = some (JSValue.obj [("type", JSValue.str "object"),
          ("properties", JSValue.obj hs)]) := by
        rw [normalize_of_validator hxv, nv_object hxk hgs, hhs]
        simp [applyOpt, hxopt]
      rw [hxd] at hd
      injection hd with hd
      obtain ⟨ld, hld, hlup⟩ := normalizeFields_assocLookup hhs hlit
      have hldv : normalize lit = some (JSValue.obj [("type", JSValue.str "literal"),
          ("value", (lit.lookup "value").getD JSValue.undefined)]) := by
        rw [normalize_of_validator hlv, nv_literal hlk]
        simp [applyOpt, hlopt]
      rw [hld] at hldv
      injection hldv with hldv
      subst hldv
      exact ⟨hs, hd, hlup⟩

/-- C4: a real union validator whose members are all object validators each
carrying a literal-valued `type` field normalizes to a `union` descriptor
with the same member count, in order, each member an object descriptor whose
`type` field is still a `literal` with the original value. -/
theorem C4_tagged_union_shape_preserved
    {v : JSValue} {xs : List JSValue}
    (hv : isConvexValidator v = true)
    (hk : v.lookup "kind" = some (JSValue.str "union"))
    (hm : v.lookup "members" = some (JSValue.arr xs))
    (hopt : isOptionalFlag v = false)
    (hmem : ∀ x ∈ xs, isConvexValidator x = true
        ∧ x.lookup "kind" = some (JSValue.str "object")
        ∧ isOptionalFlag x = false
        ∧ ∃ gs, x.lookup "fields" = some (JSValue.obj gs)
            ∧ (∃ hs, normalizeFields gs = some hs)
            ∧ ∃ lit, JSValue.assocLookup gs "type" = some lit
                ∧ isConvexValidator lit = true
                ∧ lit.lookup "kind" = some (JSValue.str "literal")
                ∧ isOptionalFlag lit = false) :
    ∃ ds, normalize v = some (JSValue.obj [("type", JSValue.str "union"),
                                           ("variants", JSValue.arr ds)])
      ∧ ds.length = xs.length
      ∧ List.Forall₂ (fun x d =>
          ∀ gs lit, x.lookup "fields" = some (JSValue.obj gs) →
            JSValue.assocLookup gs "type" = some lit →
            ∃ hs, d = JSValue.obj [("type", JSValue.str "object"),
                                   ("properties", JSValue.obj hs)]
              ∧ JSValue.assocLookup hs "type"
                  = some (JSValue.obj [("type", JSValue.str "literal"),
                      ("value", (lit.lookup "value").getD JSValue.undefined)]))
        xs ds := by
  have hex : ∀ x ∈ xs, ∃ d, normalize x = some d := by
    intro x hx
    obtain ⟨hxv, hxk, hxopt, gs, hxf, ⟨hs, hhs⟩, -⟩ := hmem x hx
    refine ⟨JSValue.obj [("type", JSValue.str "object"),
                         ("properties", JSValue.obj hs)], ?_⟩
    rw [normalize_of_validator hxv, nv_object hxk hxf, hhs]
    simp [applyOpt, hxopt]
  obtain ⟨ds, hds⟩ := normalizeList_exists hex
  refine ⟨ds, ?_, ?_, ?_⟩
  · rw [normalize_of_validator hv, nv_union hk hm, hds]
    simp [applyOpt, hopt]
  · exact (List.Forall₂.length_eq (normalizeList_forall2 hds)).symm
  · exact tagged_union_members_shape (normalizeList_forall2 hds) hmem

theorem C4_witness :
    isConvexValidator (JSValue.obj [("isConvexValidator", JSValue.bool true), ("kind", JSValue.str "union"), ("members", JSValue.arr [(JSValue.obj [("isConvexValidator", JSValue.bool true), ("kind", JSValue.str "object"), ("fields", JSValue.obj [("type", (JSValue.obj [("isConvexValidator", JSValue.bool true), ("kind", JSValue.str "literal"), ("value", JSValue.str "Win")]))])]), (JSValue.obj [("isConvexValidator", JSValue.bool true), ("kind", JSValue.str "object"), ("fields", JSValue.obj [("type", (JSValue.obj [("isConvexValidator", JSValue.bool true), ("kind", JSValue.str "literal"), ("value", JSValue.str "Draw")]))])])])]) = true
    ∧ ∃ ds, normalize (JSValue.obj [("isConvexValidator", JSValue.bool true), ("kind", JSValue.str "union"), ("members", JSValue.arr [(JSValue.obj [("isConvexValidator", JSValue.bool true), ("kind", JSValue.str "object"), ("fields", JSValue.obj [("type", (JSValue.obj [("isConvexValidator", JSValue.bool true), ("kind", JSValue.str "literal"), ("value", JSValue.str "Win")]))])]), (JSValue.obj [("isConvexValidator", JSValue.bool true), ("kind", JSValue.str "object"), ("fields", JSValue.obj [("type", (JSValue.obj [("isConvexValidator", JSValue.bool true), ("kind", JSValue.str "literal"), ("value", JSValue.str "Draw")]))])])])])
        = some (JSValue.obj [("type", JSValue.str "union"),
                             ("variants", JSValue.arr ds)])
      ∧ ds.length = ([(JSValue.obj [("isConvexValidator", JSValue.bool true), ("kind", JSValue.str "object"), ("fields", JSValue.obj [("type", (JSValue.obj [("isConvexValidator", JSValue.bool true), ("kind", JSValue.str "literal"), ("value", JSValue.str "Win")]))])]), (JSValue.obj [("isConvexValidator", JSValue.bool true), ("kind", JSValue.str "object"), ("fields", JSValue.obj [("type", (JSValue.obj [("isConvexValidator", JSValue.bool true), ("kind", JSValue.str "literal"), ("value", JSValue.str "Draw")]))])])] : List JSValue).length
      ∧ List.Forall₂ (fun x d =>
          ∀ gs lit, x.lookup "fields" = some (JSValue.obj gs) →
            JSValue.assocLookup gs "type" = some lit →
            ∃ hs, d = JSValue.obj [("type", JSValue.str "object"),
                                   ("properties", JSValue.obj hs)]
              ∧ JSValue.assocLookup hs "type"
                  = some (JSValue.obj [("type", JSValue.str "literal"),
                      ("value", (lit.lookup "value").getD JSValue.undefined)]))
          [(JSValue.obj [("isConvexValidator", JSValue.bool true), ("kind", JSValue.str "object"), ("fields", JSValue.obj [("type", (JSValue.obj [("isConvexValidator", JSValue.bool true), ("kind", JSValue.str "literal"), ("value", JSValue.str "Win")]))])]), (JSValue.obj [("isConvexValidator", JSValue.bool true), ("kind", JSValue.str "object"), ("fields", JSValue.obj [("type", (JSValue.obj [("isConvexValidator", JSValue.bool true), ("kind", JSValue.str "literal"), ("value", JSValue.str "Draw")]))])])] ds := by
  have hv : isConvexValidator (JSValue.obj [("isConvexValidator", JSValue.bool true), ("kind", JSValue.str "union"), ("members", JSValue.arr [(JSValue.obj [("isConvexValidator", JSValue.bool true), ("kind", JSValue.str "object"), ("fields", JSValue.obj [("type", (JSValue.obj [("isConvexValidator", JSValue.bool true), ("kind", JSValue.str "literal"), ("value", JSValue.str "Win")]))])]), (JSValue.obj [("isConvexValidator", JSValue.bool true), ("kind", JSValue.str "object"), ("fields", JSValue.obj [("type", (JSValue.obj [("isConvexValidator", JSValue.bool true), ("kind", JSValue.str "literal"), ("value", JSValue.str "Draw")]))])])])]) = true := rfl
  have hk : JSValue.lookup (JSValue.obj [("isConvexValidator", JSValue.bool true), ("kind", JSValue.str "union"), ("members", JSValue.arr [(JSValue.obj [("isConvexValidator", JSValue.bool true), ("kind", JSValue.str "object"), ("fields", JSValue.obj [("type", (JSValue.obj [("isConvexValidator", JSValue.bool true), ("kind", JSValue.str "literal"), ("value", JSValue.str "Win")]))])]), (JSValue.obj [("isConvexValidator", JSValue.bool true), ("kind", JSValue.str "object"), ("fields", JSValue.obj [("type", (JSValue.obj [("isConvexValidator", JSValue.bool true), ("kind", JSValue.str "literal"), ("value", JSValue.str "Draw")]))])])])]) "kind" = some (JSValue.str "union") := rfl
  have hm : JSValue.lookup (JSValue.obj [("isConvexValidator", JSValue.bool true), ("kind", JSValue.str "union"), ("members", JSValue.arr [(JSValue.obj [("isConvexValidator", JSValue.bool true), ("kind", JSValue.str "object"), ("fields", JSValue.obj [("type", (JSValue.obj [("isConvexValidator", JSValue.bool true), ("kind", JSValue.str "literal"), ("value", JSValue.str "Win")]))])]), (JSValue.obj [("isConvexValidator", JSValue.bool true), ("kind", JSValue.str "object"), ("fields", JSValue.obj [("type", (JSValue.obj [("isConvexValidator", JSValue.bool true), ("kind", JSValue.str "literal"), ("value", JSValue.str "Draw")]))])])])]) "members"
      = some (JSValue.arr [(JSValue.obj [("isConvexValidator", JSValue.bool true), ("kind", JSValue.str "object"), ("fields", JSValue.obj [("type", (JSValue.obj [("isConvexValidator", JSValue.bool true), ("kind", JSValue.str "literal"), ("value", JSValue.str "Win")]))])]), (JSValue.obj [("isConvexValidator", JSValue.bool true), ("kind", JSValue.str "object"), ("fields", JSValue.obj [("type", (JSValue.obj [("isConvexValidator", JSValue.bool true), ("kind", JSValue.str "literal"), ("value", JSValue.str "Draw")]))])])]) := rfl
  have hopt : isOptionalFlag (JSValue.obj [("isConvexValidator", JSValue.bool true), ("kind", JSValue.str "union"), ("members", JSValue.arr [(JSValue.obj [("isConvexValidator", JSValue.bool true), ("kind", JSValue.str "object"), ("fields", JSValue.obj [("type", (JSValue.obj [("isConvexValidator", JSValue.bool true), ("kind", JSValue.str "literal"), ("value", JSValue.str "Win")]))])]), (JSValue.obj [("isConvexValidator", JSValue.bool true), ("kind", JSValue.str "object"), ("fields", JSValue.obj [("type", (JSValue.obj [("isConvexValidator", JSValue.bool true), ("kind", JSValue.str "literal"), ("value", JSValue.str "Draw")]))])])])]) = false := rfl
  refine ⟨rfl, C4_tagged_union_shape_preserved hv hk hm hopt ?_⟩
  intro x hx
  simp only [List.mem_cons, List.not_mem_nil, or_false] at hx
  have hlit1 : normalize (JSValue.obj [("isConvexValidator", JSValue.bool true), ("kind", JSValue.str "literal"), ("value", JSValue.str "Win")]) = some (JSValue.obj [("type", JSValue.str "literal"), ("value", JSValue.str "Win")]) := by
    have hlv : isConvexValidator (JSValue.obj [("isConvexValidator", JSValue.bool true), ("kind", JSValue.str "literal"), ("value", JSValue.str "Win")]) = true := rfl
    have hlk : JSValue.lookup (JSValue.obj [("isConvexValidator", JSValue.bool true), ("kind", JSValue.str "literal"), ("value", JSValue.str "Win")]) "kind" = some (JSValue.str "literal") := rfl
    rw [normalize_of_validator hlv, nv_literal hlk]
    rfl
  have hlit2 : normalize (JSValue.obj [("isConvexValidator", JSValue.bool true), ("kind", JSValue.str "literal"), ("value", JSValue.str "Draw")]) = some (JSValue.obj [("type", JSValue.str "literal"), ("value", JSValue.str "Draw")]) := by
    have hlv : isConvexValidator (JSValue.obj [("isConvexValidator", JSValue.bool true), ("kind", JSValue.str "literal"), ("value", JSValue.str "Draw")]) = true := rfl
    have hlk : JSValue.lookup (JSValue.obj [("isConvexValidator", JSValue.bool true), ("kind", JSValue.str "literal"), ("value", JSValue.str "Draw")]) "kind" = some (JSValue.str "literal") := rfl
    rw [normalize_of_validator hlv, nv_literal hlk]
    rfl
  rcases hx with rfl | rfl
  · refine ⟨rfl, rfl, rfl, [("type", (JSValue.obj [("isConvexValidator", JSValue.bool true), ("kind", JSValue.str "literal"), ("value", JSValue.str "Win")]))], rfl,
      ⟨[("type", (JSValue.obj [("type", JSValue.str "literal"), ("value", JSValue.str "Win")]))], ?_⟩, (JSValue.obj [("isConvexValidator", JSValue.bool true), ("kind", JSValue.str "literal"), ("value", JSValue.str "Win")]), rfl, rfl, rfl, rfl⟩
    rw [normalizeFields_cons, hlit1, normalizeFields_nil]
    rfl
  · refine ⟨rfl, rfl, rfl, [("type", (JSValue.obj [("isConvexValidator", JSValue.bool true), ("kind", JSValue.str "literal"), ("value", JSValue.str "Draw")]))], rfl,
      ⟨[("type", (JSValue.obj [("type", JSValue.str "literal"), ("value", JSValue.str "Draw")]))], ?_⟩, (JSValue.obj [("isConvexValidator", JSValue.bool true), ("kind", JSValue.str "literal"), ("value", JSValue.str "Draw")]), rfl, rfl, rfl, rfl⟩
    rw [normalizeFields_cons, hlit2, normalizeFields_nil]
    rfl

/-! ## Instrumented server mock (src/js/mocks/convex_server.ts) and the
extraction driver loop (src/js/extractor.ts) -/

/-- JS `Object.entries` where the extractor iterates a properties record: the
own enumerable entries of a plain object; primitives have none. (Index-keyed
entries of arrays and strings are not modelled; `normalize` never produces an
array or string where a properties record is expected.) -/
def JSValue.entries : JSValue → List (String × JSValue)
  | .obj fs => fs
  | _ => []

/-- Function `makeFunctionRegistrar` from src/js/mocks/convex_server.ts (lines 70-75):
the registrar for one function kind tags the configuration object. -/
def makeFunctionRegistrar (t : String) (config : JSValue) : JSValue :=
  .obj [("__type", .str t), ("__config", config)]

def query : JSValue → JSValue := makeFunctionRegistrar "query"
def mutation : JSValue → JSValue := makeFunctionRegistrar "mutation"
def action : JSValue → JSValue := makeFunctionRegistrar "action"
def internalQuery : JSValue → JSValue := makeFunctionRegistrar "internalQuery"
def internalMutation : JSValue → JSValue := makeFunctionRegistrar "internalMutation"
def internalAction : JSValue → JSValue := makeFunctionRegistrar "internalAction"
def httpAction : JSValue → JSValue := makeFunctionRegistrar "httpAction"

/-- Constant `paginationOptsValidator` from src/js/mocks/convex_server.ts
(lines 109-115). -/
def paginationOptsValidator : JSValue :=
  .obj [("type", .str "object"),
        ("properties", .obj
          [("numItems", .obj [("type", .str "number")]),
           ("cursor", .obj
             [("type", .str "union"),
              ("variants", .arr [.obj [("type", .str "string")],
                                 .obj [("type", .str "null")]])])])]

/-- The copy of the constant in src/unnamed/part_003 (lines 119-125),
identical except that `numItems` is `{type:"float64"}`. -/
def paginationOptsValidatorPart003 : JSValue :=
  .obj [("type", .str "object"),
        ("properties", .obj
          [("numItems", .obj [("type", .str "float64")]),
           ("cursor", .obj
             [("type", .str "union"),
              ("variants", .arr [.obj [("type", .str "string")],
                                 .obj [("type", .str "null")]])])])]

/-- One record of the extractor's `functions` output array
(src/js/extractor.ts lines 81-87). `return_type` holds the stored JS value
(`JSValue.null` when no return validator was declared). -/
structure FunctionRecord where
  name : String
  type : JSValue
  params : List (String × JSValue)
  return_type : JSValue
  file_name : String

/-- JS `fp.split("/")` on the character list (the separator is the single
character `\'/\'`): every slash ends a segment, and a leading or trailing
slash yields an empty segment, exactly as in JS. -/
def splitSlash : List Char → List String
  | [] => [""]
  | c :: rest =>
      match splitSlash rest with
      | [] => [""]
      | h :: t =>
          if c = '/' then "" :: h :: t
          else String.mk (c :: h.toList) :: t

/-- JS `rawName.replace(/\.ts$/, "")` (src/js/extractor.ts line 94): drop one
trailing ".ts". -/
def stripTsExt (s : String) : String :=
  match s.toList.reverse with
  | 's' :: 't' :: '.' :: rest => String.mk rest.reverse
  | _ => s

/-- JS `fp.split("/")` and take the last element (src/js/extractor.ts 92-93);
`split` never yields an empty array, so the `?? fp` fallback is dead. -/
def baseNameOf (fp : String) : String :=
  (splitSlash fp.toList).getLastD fp

/-- The `fileName` of the module at path `fp` (src/js/extractor.ts 92-94). -/
def fileNameOf (fp : String) : String := stripTsExt (baseNameOf fp)

/-- One iteration of the export loop of src/js/extractor.ts (lines 98-145)
for the export `(exportName, value)` of the module at path `fp`.
Outer `none` = the iteration threw (a `normalize` call threw);
`some none` = the export is not tagged with `__type` and is skipped;
`some (some rec)` = the FunctionRecord pushed. -/
def extractExport (fp exportName : String) (value : JSValue) :
    Option (Option FunctionRecord) :=
  if !value.isNull && value.isObjectType && (value.lookup "__type").isSome then do
    -- const config = def.__config ?? {};
    let config : JSValue :=
      match value.lookup "__config" with
      | some JSValue.null => JSValue.obj []
      | some JSValue.undefined => JSValue.obj []
      | none => JSValue.obj []
      | some c => c
    -- params from config.args when present (non-null), via normalize
    let params : List (String × JSValue) ←
      match config.lookup "args" with
      | none => some []
      | some JSValue.undefined => some []
      | some JSValue.null => some []
      | some a =>
          (normalize a).map fun normalized =>
            match normalized.lookup "type", normalized.lookup "properties" with
            | some (JSValue.str t), some props =>
                if t = "object" ∧ props.truthy ∧ props.isObjectType then
                  props.entries
                else []
            | _, _ => []
    -- return type from config.returns when present (non-null), else null
    let ret : JSValue ←
      match config.lookup "returns" with
      | none => some JSValue.null
      | some JSValue.undefined => some JSValue.null
      | some JSValue.null => some JSValue.null
      | some r => normalize r
    some (some { name := exportName,
                 type := (value.lookup "__type").getD JSValue.undefined,
                 params := params, return_type := ret,
                 file_name := fileNameOf fp })
  else
    some none

/-- C7: an export tagged by a function registrar whose configuration declares
neither parameters nor a return validator extracts to a FunctionRecord with
empty `params`, `null` return type (the JS `null` value, not the `null`
descriptor), the export name, the registrar kind, and the module base name
with its `.ts` extension stripped. -/
theorem C7_empty_config_function_record
    {t fp n : String} {cfgFields : List (String × JSValue)}
    (hargs : JSValue.assocLookup cfgFields "args" = none)
    (hret : JSValue.assocLookup cfgFields "returns" = none) :
    extractExport fp n (makeFunctionRegistrar t (JSValue.obj cfgFields))
      = some (some { name := n, type := JSValue.str t, params := [],
                     return_type := JSValue.null,
                     file_name := stripTsExt (baseNameOf fp) })
    ∧ JSValue.null ≠ JSValue.obj [("type", JSValue.str "null")] := by
  constructor
  · unfold extractExport makeFunctionRegistrar
    simp [JSValue.lookup, JSValue.assocLookup, JSValue.isNull,
          JSValue.isObjectType, hargs, hret, fileNameOf]
  · simp

theorem C7_witness :
    JSValue.assocLookup [("handler", JSValue.undefined)] "args" = none
    ∧ JSValue.assocLookup [("handler", JSValue.undefined)] "returns" = none
    ∧ extractExport "convex/games.ts" "winGame"
        (makeFunctionRegistrar "mutation"
          (JSValue.obj [("handler", JSValue.undefined)]))
      = some (some { name := "winGame", type := JSValue.str "mutation",
                     params := [], return_type := JSValue.null,
                     file_name := "games" }) :=
  ⟨rfl, rfl,
   (@C7_empty_config_function_record "mutation" "convex/games.ts" "winGame"
      [("handler", JSValue.undefined)] rfl rfl).1⟩

/-- C8 (counterexample): the `cursor` field of the pagination-options
constant is a union of a string descriptor and a null descriptor, not an
optional wrapper around a string descriptor as the claim states. -/
theorem C8_counterexample_cursor_is_union :
    ((paginationOptsValidator.lookup "properties").getD JSValue.undefined).lookup
        "cursor"
      = some (JSValue.obj
          [("type", JSValue.str "union"),
           ("variants", JSValue.arr [JSValue.obj [("type", JSValue.str "string")],
                                     JSValue.obj [("type", JSValue.str "null")]])])
    ∧ (JSValue.obj
          [("type", JSValue.str "union"),
           ("variants", JSValue.arr [JSValue.obj [("type", JSValue.str "string")],
                                     JSValue.obj [("type", JSValue.str "null")]])]).lookup
        "type" = some (JSValue.str "union")
    ∧ ∀ inner : JSValue,
        JSValue.obj
          [("type", JSValue.str "union"),
           ("variants", JSValue.arr [JSValue.obj [("type", JSValue.str "string")],
                                     JSValue.obj [("type", JSValue.str "null")]])]
        ≠ JSValue.obj [("type", JSValue.str "optional"), ("inner", inner)] := by
  refine ⟨rfl, rfl, ?_⟩
  intro inner h
  simp at h

/-- C8 (amended): the pagination-options constant is a fixed object
descriptor with a numeric `numItems` field (`"number"` in
src/js/mocks/convex_server.ts, `"float64"` in the src/unnamed/part_003 copy)
and a `cursor` field that is a union of a string descriptor and a null
descriptor; being already canonical, it passes through `normalize`
unchanged. -/
theorem C8_amended_pagination_shape :
    paginationOptsValidator.lookup "type" = some (JSValue.str "object")
    ∧ paginationOptsValidator.lookup "properties"
        = some (JSValue.obj
            [("numItems", JSValue.obj [("type", JSValue.str "number")]),
             ("cursor", JSValue.obj
               [("type", JSValue.str "union"),
                ("variants", JSValue.arr
                  [JSValue.obj [("type", JSValue.str "string")],
                   JSValue.obj [("type", JSValue.str "null")]])])])
    ∧ paginationOptsValidatorPart003.lookup "properties"
        = some (JSValue.obj
            [("numItems", JSValue.obj [("type", JSValue.str "float64")]),
             ("cursor", JSValue.obj
               [("type", JSValue.str "union"),
                ("variants", JSValue.arr
                  [JSValue.obj [("type", JSValue.str "string")],
                   JSValue.obj [("type", JSValue.str "null")]])])])
    ∧ normalize paginationOptsValidator = some paginationOptsValidator :=
  ⟨rfl, rfl, rfl, normalize_of_codegen rfl⟩

end ConvexTypegen
